import Mathlib

/-!
Verification of the text-formatting core of a markdown editor
(`src/lib/format.ts` and the toolbar dispatch in `Layout.tsx`).

Strings are modelled as `List Char`; offsets are `Nat` (the source only
ever produces non-negative offsets, and `Math.max(lineStart, ...)` makes
the one potentially-negative intermediate agree with truncated
subtraction).  `substring(a, b)` for `a ≤ b` is `(take b).drop a`;
`substring(a)` is `drop a`.  The optional `after` argument of
`wrapSelection` is an `Option`, and the source's `after || before`
fallback (which also triggers on the empty string) is modelled exactly.
-/

namespace MarkdownEditor

/-- Result of a formatting operation (`FormatResult` in `format.ts`). -/
structure FormatResult where
  formattedText : List Char
  cursorPosition : Nat
  selectionStart : Nat
  selectionEnd : Nat
  deriving DecidableEq, Repr

/-- `startsWithL s p` is JavaScript's `s.startsWith(p)` on code-unit lists. -/
def startsWithL : List Char → List Char → Bool
  | _, [] => true
  | [], _ :: _ => false
  | a :: s, b :: p => if a = b then startsWithL s p else false

/-- Start of the line containing `pos`: the backward scan
`while (lineStart > 0 && text[lineStart - 1] !== '\n') lineStart--`. -/
def lineStartOf (text : List Char) : Nat → Nat
  | 0 => 0
  | n + 1 => if text[n]? = some '\n' then n + 1 else lineStartOf text n

/-- Scan a list for `'\n'`, reporting the absolute index (accumulator `i`). -/
def findNLAux : List Char → Nat → Option Nat
  | [], _ => none
  | a :: rest, i => if a = '\n' then some i else findNLAux rest (i + 1)

/-- `text.indexOf('\n', frm)`, with `none` for JavaScript's `-1`. -/
def findNLFrom (text : List Char) (frm : Nat) : Option Nat :=
  findNLAux (text.drop frm) frm

/-- `actualLineEnd` of `prefixLine`: next `'\n'` at or after `pos`, else length. -/
def lineEndOf (text : List Char) (pos : Nat) : Nat :=
  match findNLFrom text pos with
  | none => text.length
  | some i => i

/-- The current line `text.substring(lineStart, actualLineEnd)`. -/
def curLineOf (text : List Char) (pos : Nat) : List Char :=
  (text.take (lineEndOf text pos)).drop (lineStartOf text pos)

/-- The `afterSyntax` of `wrapSelection`: JavaScript's `after || before`,
which falls back to `before` both when `after` is omitted and when it is
the empty string. -/
def wrapAfterSyntax (before : List Char) (after : Option (List Char)) :
    List Char :=
  match after with
  | none => before
  | some a => if a = [] then before else a

/-- `wrapSelection` from `format.ts`.  `after = none` models an omitted
argument. -/
def wrapSelection (text : List Char) (selectionStart selectionEnd : Nat)
    (before : List Char) (after : Option (List Char)) : FormatResult :=
  let afterSyntax := wrapAfterSyntax before after
  let selectedText := (text.take selectionEnd).drop selectionStart
  let beforeText := text.take selectionStart
  let afterText := text.drop selectionEnd
  { formattedText := beforeText ++ before ++ selectedText ++ afterSyntax ++ afterText
    cursorPosition := selectionStart + before.length + selectedText.length + afterSyntax.length
    selectionStart := selectionStart + before.length
    selectionEnd := selectionStart + before.length + selectedText.length }

/-- `insertAtCursor` from `format.ts`. -/
def insertAtCursor (text : List Char) (cursorPosition : Nat)
    (insertText : List Char) : FormatResult :=
  let beforeText := text.take cursorPosition
  let afterText := text.drop cursorPosition
  { formattedText := beforeText ++ insertText ++ afterText
    cursorPosition := cursorPosition + insertText.length
    selectionStart := cursorPosition
    selectionEnd := cursorPosition + insertText.length }

/-- `prefixLine` from `format.ts`: toggle a literal line prefix. -/
def prefixLine (text : List Char) (cursorPosition : Nat)
    (pfx : List Char) : FormatResult :=
  let lineStart := lineStartOf text cursorPosition
  let actualLineEnd := lineEndOf text cursorPosition
  let currentLine := curLineOf text cursorPosition
  if startsWithL currentLine pfx then
    let p := max lineStart (cursorPosition - pfx.length)
    { formattedText :=
        text.take lineStart ++ currentLine.drop pfx.length ++ text.drop actualLineEnd
      cursorPosition := p
      selectionStart := p
      selectionEnd := p }
  else
    let p := cursorPosition + pfx.length
    { formattedText :=
        text.take lineStart ++ pfx ++ currentLine ++ text.drop actualLineEnd
      cursorPosition := p
      selectionStart := p
      selectionEnd := p }

/-- `formatBold` from `format.ts`. -/
def formatBold (text : List Char) (selectionStart selectionEnd : Nat) : FormatResult :=
  if selectionStart = selectionEnd then
    insertAtCursor text selectionStart "**bold text**".toList
  else
    wrapSelection text selectionStart selectionEnd "**".toList none

/-- `formatItalic` from `format.ts`. -/
def formatItalic (text : List Char) (selectionStart selectionEnd : Nat) : FormatResult :=
  if selectionStart = selectionEnd then
    insertAtCursor text selectionStart "*italic text*".toList
  else
    wrapSelection text selectionStart selectionEnd "*".toList none

/-- `formatStrikethrough` from `format.ts`. -/
def formatStrikethrough (text : List Char) (selectionStart selectionEnd : Nat) :
    FormatResult :=
  if selectionStart = selectionEnd then
    insertAtCursor text selectionStart "~~strikethrough~~".toList
  else
    wrapSelection text selectionStart selectionEnd "~~".toList none

/-- `formatInlineCode` from `format.ts`. -/
def formatInlineCode (text : List Char) (selectionStart selectionEnd : Nat) :
    FormatResult :=
  if selectionStart = selectionEnd then
    insertAtCursor text selectionStart "`code`".toList
  else
    wrapSelection text selectionStart selectionEnd "`".toList none

/-- `formatCodeBlock` from `format.ts`. -/
def formatCodeBlock (text : List Char) (cursorPosition : Nat) : FormatResult :=
  insertAtCursor text cursorPosition "```\ncode\n```".toList

/-- `formatHeading` from `format.ts`: clamp `level` to `[1,6]`, then
`prefixLine` with `'#'.repeat(n) + ' '`. -/
def formatHeading (text : List Char) (cursorPosition : Nat) (level : Int) :
    FormatResult :=
  prefixLine text cursorPosition
    (List.replicate (min (max level 1) 6).toNat '#' ++ [' '])

/-- `formatBulletList` from `format.ts`. -/
def formatBulletList (text : List Char) (cursorPosition : Nat) : FormatResult :=
  prefixLine text cursorPosition "- ".toList

/-- `formatOrderedList` from `format.ts`. -/
def formatOrderedList (text : List Char) (cursorPosition : Nat) : FormatResult :=
  prefixLine text cursorPosition "1. ".toList

/-- `formatTaskList` from `format.ts`. -/
def formatTaskList (text : List Char) (cursorPosition : Nat) : FormatResult :=
  prefixLine text cursorPosition "- [ ] ".toList

/-- `formatBlockquote` from `format.ts`. -/
def formatBlockquote (text : List Char) (cursorPosition : Nat) : FormatResult :=
  prefixLine text cursorPosition "> ".toList

/-- `formatLink` from `format.ts`. -/
def formatLink (text : List Char) (selectionStart selectionEnd : Nat) : FormatResult :=
  if selectionStart = selectionEnd then
    insertAtCursor text selectionStart "[link text](https://example.com)".toList
  else
    wrapSelection text selectionStart selectionEnd "[".toList
      (some "](https://example.com)".toList)

/-- `formatImage` from `format.ts`. -/
def formatImage (text : List Char) (selectionStart selectionEnd : Nat) : FormatResult :=
  if selectionStart = selectionEnd then
    insertAtCursor text selectionStart "![alt text](https://example.com/image.png)".toList
  else
    wrapSelection text selectionStart selectionEnd "![".toList
      (some "](https://example.com/image.png)".toList)

/-- `insertHorizontalRule` from `format.ts`. -/
def insertHorizontalRule (text : List Char) (cursorPosition : Nat) : FormatResult :=
  insertAtCursor text cursorPosition "\n---\n".toList

/-- `insertTable` from `format.ts`. -/
def insertTable (text : List Char) (cursorPosition : Nat) : FormatResult :=
  insertAtCursor text cursorPosition
    "| Header 1 | Header 2 |\n|----------|----------|\n| Cell 1   | Cell 2   |".toList

/-- The toolbar dispatch `handleFormatting` of `Layout.tsx`: the switch on
`action.id`.  `none` models the `default: return` branch (no formatting
function is invoked, the document is left unchanged). -/
def handleFormatting (id : List Char) (textContent : List Char)
    (selectionStart selectionEnd : Nat) : Option FormatResult :=
  if id = "bold".toList then
    some (formatBold textContent selectionStart selectionEnd)
  else if id = "italic".toList then
    some (formatItalic textContent selectionStart selectionEnd)
  else if id = "strikethrough".toList then
    some (formatStrikethrough textContent selectionStart selectionEnd)
  else if id = "code".toList then
    some (formatInlineCode textContent selectionStart selectionEnd)
  else if id = "heading1".toList then
    some (formatHeading textContent selectionStart 1)
  else if id = "heading2".toList then
    some (formatHeading textContent selectionStart 2)
  else if id = "heading3".toList then
    some (formatHeading textContent selectionStart 3)
  else if id = "bulletList".toList then
    some (formatBulletList textContent selectionStart)
  else if id = "orderedList".toList then
    some (formatOrderedList textContent selectionStart)
  else if id = "taskList".toList then
    some (formatTaskList textContent selectionStart)
  else if id = "blockquote".toList then
    some (formatBlockquote textContent selectionStart)
  else if id = "codeBlock".toList then
    some (formatCodeBlock textContent selectionStart)
  else if id = "link".toList then
    some (formatLink textContent selectionStart selectionEnd)
  else if id = "image".toList then
    some (formatImage textContent selectionStart selectionEnd)
  else if id = "table".toList then
    some (insertTable textContent selectionStart)
  else if id = "horizontalRule".toList then
    some (insertHorizontalRule textContent selectionStart)
  else
    none

/-- The sixteen action ids the dispatcher's switch handles. -/
def knownActionIds : List (List Char) :=
  ["bold".toList, "italic".toList, "strikethrough".toList, "code".toList,
   "heading1".toList, "heading2".toList, "heading3".toList,
   "bulletList".toList, "orderedList".toList, "taskList".toList,
   "blockquote".toList, "codeBlock".toList, "link".toList, "image".toList,
   "table".toList, "horizontalRule".toList]

theorem startsWithL_append (p t : List Char) : startsWithL (p ++ t) p = true := by
  induction p with
  | nil => cases t <;> rfl
  | cons b p ih => simp [startsWithL, ih]

theorem startsWithL_exists {s p : List Char} (h : startsWithL s p = true) :
    ∃ t, s = p ++ t := by
  induction p generalizing s with
  | nil => exact ⟨s, rfl⟩
  | cons b p ih =>
    cases s with
    | nil => simp [startsWithL] at h
    | cons a s =>
      rw [startsWithL] at h
      split at h
      · obtain ⟨t, ht⟩ := ih h
        exact ⟨t, by simp [ht]; assumption⟩
      · simp at h

theorem lineStartOf_le (text : List Char) (pos : Nat) :
    lineStartOf text pos ≤ pos := by
  induction pos with
  | zero => exact Nat.le_refl 0
  | succ n ih =>
    rw [lineStartOf]
    split
    · exact Nat.le_refl _
    · exact Nat.le_succ_of_le ih

theorem lineStartOf_no_nl (text : List Char) (pos : Nat) :
    ∀ k, lineStartOf text pos ≤ k → k < pos → text[k]? ≠ some '\n' := by
  induction pos with
  | zero => intro k _ hk; omega
  | succ n ih =>
    intro k hk1 hk2
    rw [lineStartOf] at hk1
    split at hk1
    · omega
    · rcases Nat.lt_or_ge k n with hlt | hge
      · exact ih k hk1 hlt
      · have : k = n := by omega
        subst this
        assumption

theorem lineStartOf_boundary (text : List Char) (pos : Nat) :
    lineStartOf text pos = 0 ∨
      text[lineStartOf text pos - 1]? = some '\n' := by
  induction pos with
  | zero => exact Or.inl rfl
  | succ n ih =>
    rw [lineStartOf]
    split
    · right; simpa
    · exact ih

theorem lineStartOf_unique (text : List Char) (pos ls : Nat)
    (h1 : ls ≤ pos) (h2 : ls = 0 ∨ text[ls - 1]? = some '\n')
    (h3 : ∀ k, ls ≤ k → k < pos → text[k]? ≠ some '\n') :
    lineStartOf text pos = ls := by
  rcases Nat.lt_trichotomy (lineStartOf text pos) ls with hlt | heq | hgt
  · rcases h2 with h0 | hnl
    · omega
    · exact absurd hnl
        (lineStartOf_no_nl text pos (ls - 1) (by omega) (by omega))
  · exact heq
  · rcases lineStartOf_boundary text pos with h0 | hnl
    · omega
    · have hL := lineStartOf_le text pos
      exact absurd hnl (h3 (lineStartOf text pos - 1) (by omega) (by omega))

theorem findNLAux_some {l : List Char} {i j : Nat}
    (h : findNLAux l i = some j) :
    i ≤ j ∧ j - i < l.length ∧ l[j - i]? = some '\n' ∧
      ∀ d, d < j - i → l[d]? ≠ some '\n' := by
  induction l generalizing i with
  | nil => simp [findNLAux] at h
  | cons a rest ih =>
    rw [findNLAux] at h
    split at h
    · rename_i ha
      obtain rfl : i = j := by simpa using h
      subst ha
      refine ⟨Nat.le_refl _, by simp, by simp, ?_⟩
      intro d hd; omega
    · rename_i ha
      obtain ⟨hij, hlen, hget, hmin⟩ := ih h
      have hj : 1 ≤ j - i := by omega
      refine ⟨by omega, by simp; omega, ?_, ?_⟩
      · have : j - i = (j - (i + 1)) + 1 := by omega
        rw [this, List.getElem?_cons_succ]
        exact hget
      · intro d hd
        cases d with
        | zero => simpa using ha
        | succ d =>
          rw [List.getElem?_cons_succ]
          exact hmin d (by omega)

theorem findNLAux_none {l : List Char} {i : Nat}
    (h : findNLAux l i = none) : ∀ d : Nat, l[d]? ≠ some '\n' := by
  induction l generalizing i with
  | nil => intro d; simp
  | cons a rest ih =>
    rw [findNLAux] at h
    split at h
    · exact absurd h (by simp)
    · intro d
      cases d with
      | zero => rename_i ha; simpa using ha
      | succ d => rw [List.getElem?_cons_succ]; exact ih h d

theorem lineEndOf_eq_of_some {text : List Char} {pos j : Nat}
    (h : findNLFrom text pos = some j) : lineEndOf text pos = j := by
  rw [lineEndOf, h]

theorem lineEndOf_eq_of_none {text : List Char} {pos : Nat}
    (h : findNLFrom text pos = none) : lineEndOf text pos = text.length := by
  rw [lineEndOf, h]

theorem lineEndOf_ge (text : List Char) (pos : Nat) (hpos : pos ≤ text.length) :
    pos ≤ lineEndOf text pos := by
  rcases hfind : findNLFrom text pos with _ | j
  · rw [lineEndOf_eq_of_none hfind]; exact hpos
  · rw [lineEndOf_eq_of_some hfind]; exact (findNLAux_some hfind).1

theorem lineEndOf_le (text : List Char) (pos : Nat) :
    lineEndOf text pos ≤ text.length := by
  rcases hfind : findNLFrom text pos with _ | j
  · rw [lineEndOf_eq_of_none hfind]
  · rw [lineEndOf_eq_of_some hfind]
    have h1 := (findNLAux_some hfind).1
    have h2 := (findNLAux_some hfind).2.1
    simp only [List.length_drop] at h2
    omega

theorem lineEndOf_no_nl (text : List Char) (pos : Nat) :
    ∀ k, pos ≤ k → k < lineEndOf text pos → text[k]? ≠ some '\n' := by
  intro k hk1 hk2
  rcases hfind : findNLFrom text pos with _ | j
  · have := findNLAux_none hfind (k - pos)
    rwa [List.getElem?_drop, Nat.add_sub_cancel' hk1] at this
  · rw [lineEndOf_eq_of_some hfind] at hk2
    have := (findNLAux_some hfind).2.2.2 (k - pos) (by omega)
    rwa [List.getElem?_drop, Nat.add_sub_cancel' hk1] at this

theorem lineEndOf_boundary (text : List Char) (pos : Nat) :
    lineEndOf text pos = text.length ∨
      text[lineEndOf text pos]? = some '\n' := by
  rcases hfind : findNLFrom text pos with _ | j
  · exact Or.inl (lineEndOf_eq_of_none hfind)
  · right
    rw [lineEndOf_eq_of_some hfind]
    have h1 := (findNLAux_some hfind).1
    have := (findNLAux_some hfind).2.2.1
    rwa [List.getElem?_drop, Nat.add_sub_cancel' h1] at this

theorem lineEndOf_unique (text : List Char) (pos le : Nat)
    (hpos : pos ≤ text.length)
    (h1 : pos ≤ le) (h2 : le ≤ text.length)
    (h3 : le = text.length ∨ text[le]? = some '\n')
    (h4 : ∀ k, pos ≤ k → k < le → text[k]? ≠ some '\n') :
    lineEndOf text pos = le := by
  rcases Nat.lt_trichotomy (lineEndOf text pos) le with hlt | heq | hgt
  · rcases lineEndOf_boundary text pos with h0 | hnl
    · have := lineEndOf_le text pos; omega
    · exact absurd hnl (h4 _ (lineEndOf_ge text pos hpos) hlt)
  · exact heq
  · rcases h3 with h0 | hnl
    · have := lineEndOf_le text pos; omega
    · exact absurd hnl (lineEndOf_no_nl text pos le h1 hgt)

theorem curLineOf_length (text : List Char) (pos : Nat) :
    (curLineOf text pos).length =
      lineEndOf text pos - lineStartOf text pos := by
  rw [curLineOf]
  have := lineEndOf_le text pos
  simp only [List.length_drop, List.length_take]
  omega

theorem curLineOf_getElem (text : List Char) (pos d : Nat)
    (hd : d < lineEndOf text pos - lineStartOf text pos) :
    (curLineOf text pos)[d]? = text[lineStartOf text pos + d]? := by
  rw [curLineOf, List.getElem?_drop, List.getElem?_take_of_lt (by omega)]

theorem wrapSelection_some_self (text b : List Char) (s e : Nat) :
    wrapSelection text s e b (some b) = wrapSelection text s e b none := by
  by_cases hb : b = []
  · subst hb; rfl
  · simp [wrapSelection, wrapAfterSyntax, hb]

/-- C1 counterexample: with `before = "*"` and `after` supplied as the empty
string, the source's `after || before` falls back to `before`, so the result
is not `text[0:s] + before + text[s:e] + after + text[e:]` (which would be
`"*ab"` here). -/
theorem claim_C1_counterexample :
    (wrapSelection "ab".toList 0 1 "*".toList (some [])).formattedText ≠
      "*ab".toList := by decide

/-- C1 (amended): for valid offsets, `wrapSelection` returns
`formattedText = text[0:s] + before + text[s:e] + afterSyntax + text[e:]`
where `afterSyntax` is `after` when supplied and nonempty, and `before`
otherwise (an omitted or empty `after` defaults to `before`);
`selectionStart' = s + length(before)`,
`selectionEnd' = selectionStart' + (e - s)`, and
`cursorPosition' = selectionEnd' + length(afterSyntax)`. -/
theorem claim_C1_wrapSelection_spec (text before : List Char)
    (after : Option (List Char)) (s e : Nat) (h1 : s ≤ e)
    (h2 : e ≤ text.length) :
    (wrapSelection text s e before after).formattedText =
      text.take s ++ before ++ (text.take e).drop s ++
        wrapAfterSyntax before after ++ text.drop e ∧
    (wrapSelection text s e before after).selectionStart =
      s + before.length ∧
    (wrapSelection text s e before after).selectionEnd =
      s + before.length + (e - s) ∧
    (wrapSelection text s e before after).cursorPosition =
      s + before.length + (e - s) + (wrapAfterSyntax before after).length := by
  refine ⟨rfl, rfl, ?_, ?_⟩ <;>
    simp only [wrapSelection, List.length_drop, List.length_take] <;> omega

theorem claim_C1_witness :
    (wrapSelection "ab".toList 0 1 "*".toList none).cursorPosition =
      0 + "*".toList.length + (1 - 0) + (wrapAfterSyntax "*".toList none).length :=
  (claim_C1_wrapSelection_spec "ab".toList "*".toList none 0 1 (by decide)
    (by decide)).2.2.2

/-- C4: `insertAtCursor` splices `insertText` at the cursor, the returned
selection spans exactly the inserted text, and the cursor lands at its
end. -/
theorem claim_C4_insertAtCursor_spec (text ins : List Char) (pos : Nat)
    (h : pos ≤ text.length) :
    insertAtCursor text pos ins =
      { formattedText := text.take pos ++ ins ++ text.drop pos
        cursorPosition := pos + ins.length
        selectionStart := pos
        selectionEnd := pos + ins.length } ∧
    (insertAtCursor text pos ins).selectionEnd -
        (insertAtCursor text pos ins).selectionStart = ins.length := by
  refine ⟨rfl, ?_⟩
  simp only [insertAtCursor]
  omega

theorem claim_C4_witness :
    (insertAtCursor "hello".toList 2 "**bold text**".toList).selectionEnd -
        (insertAtCursor "hello".toList 2 "**bold text**".toList).selectionStart =
      "**bold text**".toList.length :=
  (claim_C4_insertAtCursor_spec "hello".toList "**bold text**".toList 2
    (by decide)).2

/-- C5: for every integer `level`, `formatHeading` is exactly `prefixLine`
with the prefix of `n` hash characters followed by one space, where
`n = min (max level 1) 6`; in particular `1 ≤ n ≤ 6` for out-of-range
levels. -/
theorem claim_C5_formatHeading_clamp (text : List Char) (pos : Nat)
    (level : Int) :
    ∃ n : Nat, 1 ≤ n ∧ n ≤ 6 ∧ (n : Int) = min (max level 1) 6 ∧
      formatHeading text pos level =
        prefixLine text pos (List.replicate n '#' ++ [' ']) := by
  refine ⟨(min (max level 1) 6).toNat, by omega, by omega, by omega, rfl⟩

/-- C8: `formatBold` inserts the placeholder `**bold text**` on an empty
selection and wraps a nonempty selection with `**`/`**`; concretely,
`formatBold "hello world" 0 5` gives `"**hello** world"` with selection
`[2, 7]`. -/
theorem claim_C8_formatBold_spec (text : List Char) (s e : Nat) :
    (s = e → formatBold text s e =
      insertAtCursor text s "**bold text**".toList) ∧
    (s < e → formatBold text s e =
      wrapSelection text s e "**".toList (some "**".toList)) ∧
    (formatBold "hello world".toList 0 5).formattedText =
      "**hello** world".toList ∧
    (formatBold "hello world".toList 0 5).selectionStart = 2 ∧
    (formatBold "hello world".toList 0 5).selectionEnd = 7 := by
  refine ⟨?_, ?_, by decide, by decide, by decide⟩
  · intro h; simp [formatBold, h]
  · intro h
    have hne : s ≠ e := Nat.ne_of_lt h
    rw [wrapSelection_some_self]
    simp [formatBold, hne]

theorem claim_C8_witness :
    formatBold "hello world".toList 0 5 =
      wrapSelection "hello world".toList 0 5 "**".toList
        (some "**".toList) :=
  (claim_C8_formatBold_spec "hello world".toList 0 5).2.1 (by decide)

/-- C9: dispatching any action id outside the sixteen known ids is a no-op:
`handleFormatting` returns without invoking any formatting function. -/
theorem claim_C9_unknown_id_noop (id text : List Char) (s e : Nat)
    (h : id ∉ knownActionIds) :
    handleFormatting id text s e = none := by
  simp only [knownActionIds, List.mem_cons, List.not_mem_nil, or_false,
    not_or] at h
  obtain ⟨h1, h2, h3, h4, h5, h6, h7, h8, h9, h10, h11, h12, h13, h14,
    h15, h16⟩ := h
  simp only [handleFormatting]
  rw [if_neg h1, if_neg h2, if_neg h3, if_neg h4, if_neg h5, if_neg h6,
    if_neg h7, if_neg h8, if_neg h9, if_neg h10, if_neg h11, if_neg h12,
    if_neg h13, if_neg h14, if_neg h15, if_neg h16]

theorem claim_C9_witness :
    handleFormatting "unknownAction".toList "hello".toList 0 2 = none :=
  claim_C9_unknown_id_noop "unknownAction".toList "hello".toList 0 2
    (by decide)

/-- The wrap-closing marker a dispatched action appends after a nonempty
selection (empty for insert- and prefix-style actions). -/
def wrapMark (id : List Char) : List Char :=
  if id = "bold".toList then "**".toList
  else if id = "italic".toList then "*".toList
  else if id = "strikethrough".toList then "~~".toList
  else if id = "code".toList then "`".toList
  else if id = "link".toList then "](https://example.com)".toList
  else if id = "image".toList then "](https://example.com/image.png)".toList
  else []

/-- Length of the text a dispatched action inserts after the returned
selection end: zero except for wrap actions on a nonempty selection. -/
def afterMarkLen (id : List Char) (s e : Nat) : Nat :=
  if s = e then 0 else (wrapMark id).length

theorem insertAtCursor_cursor (text ins : List Char) (pos : Nat) :
    (insertAtCursor text pos ins).cursorPosition =
      (insertAtCursor text pos ins).selectionEnd := rfl

theorem prefixLine_cursor (text pfx : List Char) (pos : Nat) :
    (prefixLine text pos pfx).cursorPosition =
      (prefixLine text pos pfx).selectionEnd := by
  simp only [prefixLine]
  split <;> rfl

theorem wrapSelection_cursor (text b : List Char) (a : Option (List Char))
    (s e : Nat) :
    (wrapSelection text s e b a).cursorPosition =
      (wrapSelection text s e b a).selectionEnd +
        (wrapAfterSyntax b a).length := rfl

/-- C6 counterexample: `formatBold "hello world" 0 5` (a valid Action
Library call) returns `cursorPosition = 9` but `selectionEnd = 7`, so
`cursorPosition = selectionEnd` does not hold for wrap actions with a
nonempty selection. -/
theorem claim_C6_counterexample :
    ¬ ((formatBold "hello world".toList 0 5).cursorPosition =
        (formatBold "hello world".toList 0 5).selectionEnd) := by decide

/-- C6 (amended): for every dispatched action on valid inputs,
`cursorPosition = selectionEnd + afterMarkLen`, where `afterMarkLen` is
zero for insert- and prefix-style results (so there `cursorPosition =
selectionEnd`) and the length of the closing wrap marker for the six wrap
actions applied to a nonempty selection. -/
theorem claim_C6_cursor_vs_selectionEnd (id text : List Char) (s e : Nat)
    (h1 : s ≤ e) (h2 : e ≤ text.length) (r : FormatResult)
    (hr : handleFormatting id text s e = some r) :
    r.cursorPosition = r.selectionEnd + afterMarkLen id s e := by
  simp only [handleFormatting] at hr
  by_cases k1 : id = "bold".toList
  · rw [if_pos k1] at hr
    injection hr with hr; subst hr
    by_cases hse : s = e
    · simp [afterMarkLen, hse, formatBold, insertAtCursor]
    · have hm : wrapMark id = "**".toList := by rw [k1]; decide
      have hw : wrapAfterSyntax "**".toList none = "**".toList := by decide
      simp [afterMarkLen, hse, hm, formatBold, wrapSelection, hw]
      decide
  rw [if_neg k1] at hr
  by_cases k2 : id = "italic".toList
  · rw [if_pos k2] at hr
    injection hr with hr; subst hr
    by_cases hse : s = e
    · simp [afterMarkLen, hse, formatItalic, insertAtCursor]
    · have hm : wrapMark id = "*".toList := by rw [k2]; decide
      have hw : wrapAfterSyntax "*".toList none = "*".toList := by decide
      simp [afterMarkLen, hse, hm, formatItalic, wrapSelection, hw]
      decide
  rw [if_neg k2] at hr
  by_cases k3 : id = "strikethrough".toList
  · rw [if_pos k3] at hr
    injection hr with hr; subst hr
    by_cases hse : s = e
    · simp [afterMarkLen, hse, formatStrikethrough, insertAtCursor]
    · have hm : wrapMark id = "~~".toList := by rw [k3]; decide
      have hw : wrapAfterSyntax "~~".toList none = "~~".toList := by decide
      simp [afterMarkLen, hse, hm, formatStrikethrough, wrapSelection, hw]
      decide
  rw [if_neg k3] at hr
  by_cases k4 : id = "code".toList
  · rw [if_pos k4] at hr
    injection hr with hr; subst hr
    by_cases hse : s = e
    · simp [afterMarkLen, hse, formatInlineCode, insertAtCursor]
    · have hm : wrapMark id = "`".toList := by rw [k4]; decide
      have hw : wrapAfterSyntax "`".toList none = "`".toList := by decide
      simp [afterMarkLen, hse, hm, formatInlineCode, wrapSelection, hw]
      decide
  rw [if_neg k4] at hr
  by_cases k5 : id = "heading1".toList
  · rw [if_pos k5] at hr
    injection hr with hr; subst hr
    have hm : (wrapMark id).length = 0 := by rw [k5]; decide
    simp [afterMarkLen, hm]
    exact prefixLine_cursor text _ s
  rw [if_neg k5] at hr
  by_cases k6 : id = "heading2".toList
  · rw [if_pos k6] at hr
    injection hr with hr; subst hr
    have hm : (wrapMark id).length = 0 := by rw [k6]; decide
    simp [afterMarkLen, hm]
    exact prefixLine_cursor text _ s
  rw [if_neg k6] at hr
  by_cases k7 : id = "heading3".toList
  · rw [if_pos k7] at hr
    injection hr with hr; subst hr
    have hm : (wrapMark id).length = 0 := by rw [k7]; decide
    simp [afterMarkLen, hm]
    exact prefixLine_cursor text _ s
  rw [if_neg k7] at hr
  by_cases k8 : id = "bulletList".toList
  · rw [if_pos k8] at hr
    injection hr with hr; subst hr
    have hm : (wrapMark id).length = 0 := by rw [k8]; decide
    simp [afterMarkLen, hm]
    exact prefixLine_cursor text _ s
  rw [if_neg k8] at hr
  by_cases k9 : id = "orderedList".toList
  · rw [if_pos k9] at hr
    injection hr with hr; subst hr
    have hm : (wrapMark id).length = 0 := by rw [k9]; decide
    simp [afterMarkLen, hm]
    exact prefixLine_cursor text _ s
  rw [if_neg k9] at hr
  by_cases k10 : id = "taskList".toList
  · rw [if_pos k10] at hr
    injection hr with hr; subst hr
    have hm : (wrapMark id).length = 0 := by rw [k10]; decide
    simp [afterMarkLen, hm]
    exact prefixLine_cursor text _ s
  rw [if_neg k10] at hr
  by_cases k11 : id = "blockquote".toList
  · rw [if_pos k11] at hr
    injection hr with hr; subst hr
    have hm : (wrapMark id).length = 0 := by rw [k11]; decide
    simp [afterMarkLen, hm]
    exact prefixLine_cursor text _ s
  rw [if_neg k11] at hr
  by_cases k12 : id = "codeBlock".toList
  · rw [if_pos k12] at hr
    injection hr with hr; subst hr
    have hm : (wrapMark id).length = 0 := by rw [k12]; decide
    simp [afterMarkLen, hm]
    rfl
  rw [if_neg k12] at hr
  by_cases k13 : id = "link".toList
  · rw [if_pos k13] at hr
    injection hr with hr; subst hr
    by_cases hse : s = e
    · simp [afterMarkLen, hse, formatLink, insertAtCursor]
    · have hm : wrapMark id = "](https://example.com)".toList := by rw [k13]; decide
      have hw : wrapAfterSyntax "[".toList (some "](https://example.com)".toList) = "](https://example.com)".toList := by decide
      simp [afterMarkLen, hse, hm, formatLink, wrapSelection, hw]
      decide
  rw [if_neg k13] at hr
  by_cases k14 : id = "image".toList
  · rw [if_pos k14] at hr
    injection hr with hr; subst hr
    by_cases hse : s = e
    · simp [afterMarkLen, hse, formatImage, insertAtCursor]
    · have hm : wrapMark id = "](https://example.com/image.png)".toList := by rw [k14]; decide
      have hw : wrapAfterSyntax "![".toList (some "](https://example.com/image.png)".toList) = "](https://example.com/image.png)".toList := by decide
      simp [afterMarkLen, hse, hm, formatImage, wrapSelection, hw]
      decide
  rw [if_neg k14] at hr
  by_cases k15 : id = "table".toList
  · rw [if_pos k15] at hr
    injection hr with hr; subst hr
    have hm : (wrapMark id).length = 0 := by rw [k15]; decide
    simp [afterMarkLen, hm]
    rfl
  rw [if_neg k15] at hr
  by_cases k16 : id = "horizontalRule".toList
  · rw [if_pos k16] at hr
    injection hr with hr; subst hr
    have hm : (wrapMark id).length = 0 := by rw [k16]; decide
    simp [afterMarkLen, hm]
    rfl
  rw [if_neg k16] at hr
  exact Option.noConfusion hr

/-- The selection reported by a `FormatResult` lies inside its text. -/
def inBounds (r : FormatResult) : Prop :=
  r.selectionStart ≤ r.selectionEnd ∧
    r.selectionEnd ≤ r.formattedText.length

/-- `inBounds`, lifted to the dispatcher's optional result. -/
def inBoundsO : Option FormatResult → Prop
  | none => True
  | some r => inBounds r

theorem wrapSelection_inBounds (text b : List Char) (a : Option (List Char))
    (s e : Nat) (h1 : s ≤ e) (h2 : e ≤ text.length) :
    inBounds (wrapSelection text s e b a) := by
  constructor
  · simp only [wrapSelection]
    omega
  · simp only [wrapSelection, List.length_append, List.length_take,
      List.length_drop]
    omega

theorem insertAtCursor_inBounds (text ins : List Char) (pos : Nat)
    (h : pos ≤ text.length) : inBounds (insertAtCursor text pos ins) := by
  constructor
  · simp only [insertAtCursor]
    omega
  · simp only [insertAtCursor, List.length_append, List.length_take,
      List.length_drop]
    omega

theorem prefixLine_inBounds (text pfx : List Char) (pos : Nat)
    (hpos : pos ≤ text.length) : inBounds (prefixLine text pos pfx) := by
  have hL := lineStartOf_le text pos
  have hE1 := lineEndOf_ge text pos hpos
  have hE2 := lineEndOf_le text pos
  have hcl := curLineOf_length text pos
  simp only [inBounds, prefixLine]
  split
  · rename_i hsw
    obtain ⟨t, ht⟩ := startsWithL_exists hsw
    have hplen : pfx.length ≤ (curLineOf text pos).length := by
      rw [ht]; simp
    dsimp only
    refine ⟨Nat.le_refl _, ?_⟩
    simp only [List.length_append, List.length_take, List.length_drop]
    omega
  · dsimp only
    refine ⟨Nat.le_refl _, ?_⟩
    simp only [List.length_append, List.length_take, List.length_drop]
    omega

theorem handleFormatting_inBounds (id text : List Char) (s e : Nat)
    (h1 : s ≤ e) (h2 : e ≤ text.length) :
    inBoundsO (handleFormatting id text s e) := by
  simp only [handleFormatting]
  by_cases k1 : id = "bold".toList
  · rw [if_pos k1]
    simp only [inBoundsO]
    unfold formatBold
    split
    · exact insertAtCursor_inBounds text _ s (by omega)
    · exact wrapSelection_inBounds text _ _ s e h1 h2
  rw [if_neg k1]
  by_cases k2 : id = "italic".toList
  · rw [if_pos k2]
    simp only [inBoundsO]
    unfold formatItalic
    split
    · exact insertAtCursor_inBounds text _ s (by omega)
    · exact wrapSelection_inBounds text _ _ s e h1 h2
  rw [if_neg k2]
  by_cases k3 : id = "strikethrough".toList
  · rw [if_pos k3]
    simp only [inBoundsO]
    unfold formatStrikethrough
    split
    · exact insertAtCursor_inBounds text _ s (by omega)
    · exact wrapSelection_inBounds text _ _ s e h1 h2
  rw [if_neg k3]
  by_cases k4 : id = "code".toList
  · rw [if_pos k4]
    simp only [inBoundsO]
    unfold formatInlineCode
    split
    · exact insertAtCursor_inBounds text _ s (by omega)
    · exact wrapSelection_inBounds text _ _ s e h1 h2
  rw [if_neg k4]
  by_cases k5 : id = "heading1".toList
  · rw [if_pos k5]
    simp only [inBoundsO]
    exact prefixLine_inBounds text _ s (by omega)
  rw [if_neg k5]
  by_cases k6 : id = "heading2".toList
  · rw [if_pos k6]
    simp only [inBoundsO]
    exact prefixLine_inBounds text _ s (by omega)
  rw [if_neg k6]
  by_cases k7 : id = "heading3".toList
  · rw [if_pos k7]
    simp only [inBoundsO]
    exact prefixLine_inBounds text _ s (by omega)
  rw [if_neg k7]
  by_cases k8 : id = "bulletList".toList
  · rw [if_pos k8]
    simp only [inBoundsO]
    exact prefixLine_inBounds text _ s (by omega)
  rw [if_neg k8]
  by_cases k9 : id = "orderedList".toList
  · rw [if_pos k9]
    simp only [inBoundsO]
    exact prefixLine_inBounds text _ s (by omega)
  rw [if_neg k9]
  by_cases k10 : id = "taskList".toList
  · rw [if_pos k10]
    simp only [inBoundsO]
    exact prefixLine_inBounds text _ s (by omega)
  rw [if_neg k10]
  by_cases k11 : id = "blockquote".toList
  · rw [if_pos k11]
    simp only [inBoundsO]
    exact prefixLine_inBounds text _ s (by omega)
  rw [if_neg k11]
  by_cases k12 : id = "codeBlock".toList
  · rw [if_pos k12]
    simp only [inBoundsO]
    exact insertAtCursor_inBounds text _ s (by omega)
  rw [if_neg k12]
  by_cases k13 : id = "link".toList
  · rw [if_pos k13]
    simp only [inBoundsO]
    unfold formatLink
    split
    · exact insertAtCursor_inBounds text _ s (by omega)
    · exact wrapSelection_inBounds text _ _ s e h1 h2
  rw [if_neg k13]
  by_cases k14 : id = "image".toList
  · rw [if_pos k14]
    simp only [inBoundsO]
    unfold formatImage
    split
    · exact insertAtCursor_inBounds text _ s (by omega)
    · exact wrapSelection_inBounds text _ _ s e h1 h2
  rw [if_neg k14]
  by_cases k15 : id = "table".toList
  · rw [if_pos k15]
    simp only [inBoundsO]
    exact insertAtCursor_inBounds text _ s (by omega)
  rw [if_neg k15]
  by_cases k16 : id = "horizontalRule".toList
  · rw [if_pos k16]
    simp only [inBoundsO]
    exact insertAtCursor_inBounds text _ s (by omega)
  rw [if_neg k16]
  exact trivial

/-- C7: for every primitive (`wrapSelection`, `insertAtCursor`,
`prefixLine`) and every dispatched Action Library call on valid inputs
(`0 ≤ s ≤ e ≤ length(text)`), the returned selection satisfies
`selectionStart' ≤ selectionEnd' ≤ length(formattedText)`. -/
theorem claim_C7_selection_in_bounds (text b ins pfx id : List Char)
    (a : Option (List Char)) (s e : Nat) (h1 : s ≤ e)
    (h2 : e ≤ text.length) :
    inBounds (wrapSelection text s e b a) ∧
    inBounds (insertAtCursor text s ins) ∧
    inBounds (prefixLine text s pfx) ∧
    inBoundsO (handleFormatting id text s e) :=
  ⟨wrapSelection_inBounds text b a s e h1 h2,
   insertAtCursor_inBounds text ins s (by omega),
   prefixLine_inBounds text pfx s (by omega),
   handleFormatting_inBounds id text s e h1 h2⟩

theorem claim_C7_witness :
    inBounds (wrapSelection "hello world".toList 0 5 "**".toList none) ∧
    inBounds (insertAtCursor "hello world".toList 0 "abc".toList) ∧
    inBounds (prefixLine "hello world".toList 0 "- ".toList) ∧
    inBoundsO (handleFormatting "bold".toList "hello world".toList 0 5) :=
  claim_C7_selection_in_bounds "hello world".toList "**".toList
    "abc".toList "- ".toList "bold".toList none 0 5 (by decide) (by decide)

theorem claim_C6_witness :
    (formatTaskList "hello".toList 0).cursorPosition =
      (formatTaskList "hello".toList 0).selectionEnd +
        afterMarkLen "taskList".toList 0 0 :=
  claim_C6_cursor_vs_selectionEnd "taskList".toList "hello".toList 0 0
    (by decide) (by decide) (formatTaskList "hello".toList 0) (by decide)

/-- C2: `prefixLine` computes the line containing `cursorPosition` — it
runs from the character after the nearest preceding newline (or 0) up to
the next newline at or after the cursor (or end of text).  If that line
starts with the prefix (exact, case-sensitive match) it removes the first
`length(prefix)` characters of the line and clamps the cursor to
`max lineStart (cursorPosition - length(prefix))`; otherwise it prepends
the prefix and moves the cursor forward by `length(prefix)`.  In both
branches the returned selection is collapsed at the new cursor. -/
theorem claim_C2_prefixLine_spec (text pfx : List Char) (pos : Nat)
    (hpos : pos ≤ text.length) :
    ∃ ls le : Nat,
      ls ≤ pos ∧ pos ≤ le ∧ le ≤ text.length ∧
      (ls = 0 ∨ text[ls - 1]? = some '\n') ∧
      (le = text.length ∨ text[le]? = some '\n') ∧
      (∀ k, ls ≤ k → k < le → text[k]? ≠ some '\n') ∧
      (if startsWithL ((text.take le).drop ls) pfx then
        prefixLine text pos pfx =
          { formattedText := text.take ls ++
              ((text.take le).drop ls).drop pfx.length ++ text.drop le
            cursorPosition := max ls (pos - pfx.length)
            selectionStart := max ls (pos - pfx.length)
            selectionEnd := max ls (pos - pfx.length) }
      else
        prefixLine text pos pfx =
          { formattedText := text.take ls ++ pfx ++
              ((text.take le).drop ls) ++ text.drop le
            cursorPosition := pos + pfx.length
            selectionStart := pos + pfx.length
            selectionEnd := pos + pfx.length }) := by
  refine ⟨lineStartOf text pos, lineEndOf text pos, lineStartOf_le text pos,
    lineEndOf_ge text pos hpos, lineEndOf_le text pos,
    lineStartOf_boundary text pos, lineEndOf_boundary text pos, ?_, ?_⟩
  · intro k hk1 hk2
    rcases Nat.lt_or_ge k pos with hlt | hge
    · exact lineStartOf_no_nl text pos k hk1 hlt
    · exact lineEndOf_no_nl text pos k hge hk2
  · split
    · rename_i hsw
      simp only [prefixLine, curLineOf]
      rw [if_pos hsw]
    · rename_i hsw
      simp only [prefixLine, curLineOf]
      rw [if_neg hsw]

theorem claim_C2_witness :
    ∃ ls le : Nat,
      ls ≤ 4 ∧ 4 ≤ le ∧ le ≤ "ab\ncd".toList.length ∧
      (ls = 0 ∨ "ab\ncd".toList[ls - 1]? = some '\n') ∧
      (le = "ab\ncd".toList.length ∨ "ab\ncd".toList[le]? = some '\n') ∧
      (∀ k, ls ≤ k → k < le → "ab\ncd".toList[k]? ≠ some '\n') ∧
      (if startsWithL (("ab\ncd".toList.take le).drop ls) "- ".toList then
        prefixLine "ab\ncd".toList 4 "- ".toList =
          { formattedText := "ab\ncd".toList.take ls ++
              (("ab\ncd".toList.take le).drop ls).drop "- ".toList.length ++
                "ab\ncd".toList.drop le
            cursorPosition := max ls (4 - "- ".toList.length)
            selectionStart := max ls (4 - "- ".toList.length)
            selectionEnd := max ls (4 - "- ".toList.length) }
      else
        prefixLine "ab\ncd".toList 4 "- ".toList =
          { formattedText := "ab\ncd".toList.take ls ++ "- ".toList ++
              (("ab\ncd".toList.take le).drop ls) ++ "ab\ncd".toList.drop le
            cursorPosition := 4 + "- ".toList.length
            selectionStart := 4 + "- ".toList.length
            selectionEnd := 4 + "- ".toList.length }) :=
  claim_C2_prefixLine_spec "ab\ncd".toList "- ".toList 4 (by decide)

/-- C10: `prefixLine` changes only the line containing the cursor — the
formatted text agrees with the original text on `text[0:lineStart]` (as a
prefix) and on `text[actualLineEnd:]` (as a suffix), in both the add- and
remove-prefix branches. -/
theorem claim_C10_prefixLine_frame (text pfx : List Char) (pos : Nat)
    (hpos : pos ≤ text.length) :
    (prefixLine text pos pfx).formattedText.take (lineStartOf text pos) =
      text.take (lineStartOf text pos) ∧
    (prefixLine text pos pfx).formattedText.drop
        ((prefixLine text pos pfx).formattedText.length -
          (text.length - lineEndOf text pos)) =
      text.drop (lineEndOf text pos) := by
  have hL := lineStartOf_le text pos
  have hE1 := lineEndOf_ge text pos hpos
  have hE2 := lineEndOf_le text pos
  have hcl := curLineOf_length text pos
  have h1 : (text.take (lineStartOf text pos)).length = lineStartOf text pos := by
    simp only [List.length_take]
    omega
  simp only [prefixLine]
  split
  · rename_i hsw
    obtain ⟨t, ht⟩ := startsWithL_exists hsw
    have hplen : pfx.length ≤ (curLineOf text pos).length := by
      rw [ht]; simp
    dsimp only
    constructor
    · rw [List.append_assoc, List.take_left' h1]
    · have h3 : (text.take (lineStartOf text pos) ++
            (curLineOf text pos).drop pfx.length ++
            text.drop (lineEndOf text pos)).length -
          (text.length - lineEndOf text pos) =
            (text.take (lineStartOf text pos) ++
              (curLineOf text pos).drop pfx.length).length := by
        simp only [List.length_append, List.length_drop, h1]
        omega
      rw [h3]
      exact List.drop_left _ _
  · dsimp only
    constructor
    · rw [List.append_assoc, List.append_assoc, List.take_left' h1]
    · have h3 : (text.take (lineStartOf text pos) ++ pfx ++
            curLineOf text pos ++ text.drop (lineEndOf text pos)).length -
          (text.length - lineEndOf text pos) =
            (text.take (lineStartOf text pos) ++ pfx ++
              curLineOf text pos).length := by
        simp only [List.length_append, List.length_drop, h1]
        omega
      rw [h3]
      exact List.drop_left _ _

theorem claim_C10_witness :
    (prefixLine "ab\ncd".toList 4 "- ".toList).formattedText.take
        (lineStartOf "ab\ncd".toList 4) =
      "ab\ncd".toList.take (lineStartOf "ab\ncd".toList 4) ∧
    (prefixLine "ab\ncd".toList 4 "- ".toList).formattedText.drop
        ((prefixLine "ab\ncd".toList 4 "- ".toList).formattedText.length -
          ("ab\ncd".toList.length - lineEndOf "ab\ncd".toList 4)) =
      "ab\ncd".toList.drop (lineEndOf "ab\ncd".toList 4) :=
  claim_C10_prefixLine_frame "ab\ncd".toList "- ".toList 4 (by decide)

theorem addResult_getElem (text pfx : List Char) (pos : Nat)
    (hpos : pos ≤ text.length) (k : Nat) :
    (text.take (lineStartOf text pos) ++ pfx ++ curLineOf text pos ++
        text.drop (lineEndOf text pos))[k]? =
      if k < lineStartOf text pos then text[k]?
      else if k < lineStartOf text pos + pfx.length then
        pfx[k - lineStartOf text pos]?
      else text[k - pfx.length]? := by
  have hL := lineStartOf_le text pos
  have hE1 := lineEndOf_ge text pos hpos
  have hE2 := lineEndOf_le text pos
  have hcl := curLineOf_length text pos
  have h1 : (text.take (lineStartOf text pos)).length =
      lineStartOf text pos := by
    simp only [List.length_take]
    omega
  rw [List.getElem?_append, List.getElem?_append, List.getElem?_append]
  simp only [List.length_append, h1, hcl]
  split_ifs <;>
    first
      | (exfalso; omega)
      | rfl
      | (exact List.getElem?_take_of_lt (by omega))
      | (rw [curLineOf_getElem text pos _ (by omega)]; congr 1; omega)
      | (rw [List.getElem?_drop]; congr 1; omega)

/-- C3 counterexample: with the prefix `"x\n"` (which contains a newline),
the first call takes the add-prefix branch, but the second call at the
returned cursor adds again instead of removing, so the round trip does not
restore the original text. -/
theorem claim_C3_counterexample :
    startsWithL (curLineOf "abc".toList 0) "x\n".toList = false ∧
    (prefixLine (prefixLine "abc".toList 0 "x\n".toList).formattedText
        (prefixLine "abc".toList 0 "x\n".toList).cursorPosition
        "x\n".toList).formattedText ≠ "abc".toList := by decide

/-- C3 (amended): for every prefix containing no newline character, if the
first `prefixLine` call takes the add-prefix branch (the current line does
not start with the prefix), then applying `prefixLine` again with the same
prefix to the returned text at the returned cursor restores the original
input text. -/
theorem claim_C3_add_then_remove (text pfx : List Char) (pos : Nat)
    (hpos : pos ≤ text.length) (hnp : '\n' ∉ pfx)
    (hadd : startsWithL (curLineOf text pos) pfx = false) :
    (prefixLine (prefixLine text pos pfx).formattedText
        (prefixLine text pos pfx).cursorPosition pfx).formattedText =
      text := by
  have hL := lineStartOf_le text pos
  have hE1 := lineEndOf_ge text pos hpos
  have hE2 := lineEndOf_le text pos
  have hcl := curLineOf_length text pos
  have h1 : (text.take (lineStartOf text pos)).length =
      lineStartOf text pos := by
    simp only [List.length_take]
    omega
  have hneg : ¬ (startsWithL (curLineOf text pos) pfx = true) := by
    rw [hadd]
    exact Bool.false_ne_true
  have hfst : prefixLine text pos pfx =
      { formattedText := text.take (lineStartOf text pos) ++ pfx ++
          curLineOf text pos ++ text.drop (lineEndOf text pos)
        cursorPosition := pos + pfx.length
        selectionStart := pos + pfx.length
        selectionEnd := pos + pfx.length } := by
    simp only [prefixLine]
    rw [if_neg hneg]
  have hget := addResult_getElem text pfx pos hpos
  have ht2len : (text.take (lineStartOf text pos) ++ pfx ++
      curLineOf text pos ++ text.drop (lineEndOf text pos)).length =
        text.length + pfx.length := by
    simp only [List.length_append, List.length_drop, h1, hcl]
    omega
  have hlen3 : (text.take (lineStartOf text pos) ++ pfx ++
      curLineOf text pos).length = lineEndOf text pos + pfx.length := by
    simp only [List.length_append, h1, hcl]
    omega
  have hls2 : lineStartOf (text.take (lineStartOf text pos) ++ pfx ++
      curLineOf text pos ++ text.drop (lineEndOf text pos))
        (pos + pfx.length) = lineStartOf text pos := by
    apply lineStartOf_unique
    · omega
    · rcases lineStartOf_boundary text pos with h0 | hb
      · exact Or.inl h0
      · by_cases hL0 : lineStartOf text pos = 0
        · exact Or.inl hL0
        · right
          rw [hget (lineStartOf text pos - 1), if_pos (by omega)]
          exact hb
    · intro k hk1 hk2
      rw [hget k]
      split_ifs with d1 d2
      · exfalso; omega
      · intro hc
        exact hnp (List.getElem?_mem hc)
      · exact lineStartOf_no_nl text pos (k - pfx.length) (by omega) (by omega)
  have hle2 : lineEndOf (text.take (lineStartOf text pos) ++ pfx ++
      curLineOf text pos ++ text.drop (lineEndOf text pos))
        (pos + pfx.length) = lineEndOf text pos + pfx.length := by
    apply lineEndOf_unique
    · rw [ht2len]; omega
    · omega
    · rw [ht2len]; omega
    · rcases lineEndOf_boundary text pos with h0 | hb
      · left
        rw [ht2len, h0]
      · right
        rw [hget (lineEndOf text pos + pfx.length),
          if_neg (by omega), if_neg (by omega), Nat.add_sub_cancel]
        exact hb
    · intro k hk1 hk2
      rw [hget k, if_neg (by omega), if_neg (by omega)]
      exact lineEndOf_no_nl text pos (k - pfx.length) (by omega) (by omega)
  have hcur2 : curLineOf (text.take (lineStartOf text pos) ++ pfx ++
      curLineOf text pos ++ text.drop (lineEndOf text pos))
        (pos + pfx.length) = pfx ++ curLineOf text pos := by
    rw [curLineOf, hls2, hle2, List.take_left' hlen3, List.append_assoc,
      List.drop_left' h1]
  have htake2 : (text.take (lineStartOf text pos) ++ pfx ++
      curLineOf text pos ++ text.drop (lineEndOf text pos)).take
        (lineStartOf text pos) = text.take (lineStartOf text pos) := by
    rw [List.append_assoc, List.append_assoc]
    exact List.take_left' h1
  have hdrop2 : (text.take (lineStartOf text pos) ++ pfx ++
      curLineOf text pos ++ text.drop (lineEndOf text pos)).drop
        (lineEndOf text pos + pfx.length) =
          text.drop (lineEndOf text pos) :=
    List.drop_left' hlen3
  rw [hfst]
  dsimp only
  simp only [prefixLine]
  rw [hcur2, hls2, hle2,
    if_pos (startsWithL_append pfx (curLineOf text pos))]
  dsimp only
  rw [htake2, hdrop2, List.drop_left]
  have htt : (text.take (lineEndOf text pos)).take (lineStartOf text pos) =
      text.take (lineStartOf text pos) := by
    rw [List.take_take]
    congr 1
    omega
  rw [curLineOf, ← htt, List.take_append_drop, List.take_append_drop]

theorem claim_C3_witness :
    (prefixLine (prefixLine "ab\ncd".toList 4 "- ".toList).formattedText
        (prefixLine "ab\ncd".toList 4 "- ".toList).cursorPosition
        "- ".toList).formattedText = "ab\ncd".toList :=
  claim_C3_add_then_remove "ab\ncd".toList "- ".toList 4 (by decide)
    (by decide) (by decide)

example :
    prefixLine "# Title".toList 0 "# ".toList =
      { formattedText := "Title".toList, cursorPosition := 0,
        selectionStart := 0, selectionEnd := 0 } := by decide

example :
    (wrapSelection "hello world".toList 0 5 "**".toList none).formattedText =
      "**hello** world".toList := by decide

example :
    insertAtCursor "hello".toList 2 "**bold text**".toList =
      { formattedText := "he**bold text**llo".toList, cursorPosition := 15,
        selectionStart := 2, selectionEnd := 15 } := by decide

end MarkdownEditor
